import Mathlib

/-!
Verification of the `chromadb_cli.py` file-indexing CLI.

The development shallowly embeds the program's pure logic:
* the fixed configuration constants (`BINARY_EXTENSIONS`, `SKIP_DIRS`, `MAX_FILE_SIZE`),
* the path helpers (`os.path.splitext` extension extraction, lower-casing),
* the SHA-256 hash used by `_file_id` (FIPS 180-4, modelled over `Nat` with
  explicit reduction modulo 2^32),
* the per-file filters `_should_skip_file` / `_read_text`,
* the `os.walk`-based traversal with directory pruning and batched upserts
  (`walk_and_index`),
* the query-side guard and result rendering (`query_collection`), with the
  external vector store abstracted as a record of its observable interface,
* the `main` dispatch.

File systems are modelled as finite trees of named entries; a file carries its
size and, when it decodes as strict UTF-8, its text.  Numeric distances are
modelled as exact rationals.
-/

set_option maxRecDepth 100000

/-- `DEFAULT_DB_DIR` from the source: persistence directory name. -/
def DEFAULT_DB_DIR : String := ".chromadb"

/-- `COLLECTION_NAME` from the source. -/
def COLLECTION_NAME : String := "files"

/-- `BINARY_EXTENSIONS` from the source: extensions that are never indexed. -/
def BINARY_EXTENSIONS : List String :=
  [".png", ".jpg", ".jpeg", ".gif", ".bmp", ".ico", ".svg", ".webp",
   ".mp3", ".mp4", ".wav", ".avi", ".mov", ".mkv", ".flac",
   ".zip", ".tar", ".gz", ".bz2", ".xz", ".7z", ".rar",
   ".pdf", ".doc", ".docx", ".xls", ".xlsx", ".ppt", ".pptx",
   ".exe", ".dll", ".so", ".dylib", ".o", ".a",
   ".pyc", ".pyo", ".class", ".wasm",
   ".bin", ".dat", ".db", ".sqlite",
   ".ttf", ".otf", ".woff", ".woff2", ".eot"]

/-- `SKIP_DIRS` from the source: directory names pruned during traversal. -/
def SKIP_DIRS : List String :=
  [".git", ".hg", ".svn",
   "__pycache__", ".mypy_cache", ".pytest_cache",
   "node_modules", ".tox", ".venv", "venv", "env",
   DEFAULT_DB_DIR]

/-- `MAX_FILE_SIZE` from the source (1 MB). -/
def MAX_FILE_SIZE : Nat := 1000000

/-- Python `str.lower` restricted to ASCII, as applied to file extensions. -/
def strLower (s : String) : String := ⟨s.data.map Char.toLower⟩

/-- Characters of the basename of a path: everything after the last slash. -/
def basenameChars (cs : List Char) : List Char :=
  ((cs.reverse.takeWhile (fun c => c ≠ '/')).reverse)

/-- Extension of a basename, per `os.path.splitext`: the suffix starting at the
last dot, provided some character before that dot (within the basename) is not
a dot; leading dots alone never start an extension. -/
def extChars (b : List Char) : List Char :=
  let tl := b.reverse.takeWhile (fun c => c ≠ '.')
  if tl.length = b.length then []
  else
    let pre := b.take (b.length - tl.length - 1)
    if pre.any (fun c => c ≠ '.') then '.' :: tl.reverse else []

/-- `os.path.splitext(p)[1]`: the extension part of a path. -/
def splitextExt (p : String) : String := ⟨extChars (basenameChars p.data)⟩

/-- UTF-8 encoding of a Unicode scalar value, as a list of bytes. -/
def utf8EncodeChar (n : Nat) : List Nat :=
  if n < 128 then [n]
  else if n < 2048 then
    [192 + (n >>> 6), 128 + (n &&& 63)]
  else if n < 65536 then
    [224 + (n >>> 12), 128 + ((n >>> 6) &&& 63), 128 + (n &&& 63)]
  else
    [240 + (n >>> 18), 128 + ((n >>> 12) &&& 63), 128 + ((n >>> 6) &&& 63), 128 + (n &&& 63)]

/-- Python `str.encode()`: UTF-8 bytes of a string. -/
def strBytes (s : String) : List Nat := (s.data.map (fun c => utf8EncodeChar c.toNat)).flatten

/-! ### SHA-256 (FIPS 180-4), over `Nat` with explicit mod-2^32 reduction -/

/-- Reduce modulo 2^32. -/
def w32 (n : Nat) : Nat := n % 4294967296

/-- Rotate a 32-bit word right by `n` bits. -/
def rotr (n x : Nat) : Nat := w32 ((x >>> n) ||| (x <<< (32 - n)))

def bsig0 (x : Nat) : Nat := (rotr 2 x) ^^^ (rotr 13 x) ^^^ (rotr 22 x)

def bsig1 (x : Nat) : Nat := (rotr 6 x) ^^^ (rotr 11 x) ^^^ (rotr 25 x)

def ssig0 (x : Nat) : Nat := (rotr 7 x) ^^^ (rotr 18 x) ^^^ (x >>> 3)

def ssig1 (x : Nat) : Nat := (rotr 17 x) ^^^ (rotr 19 x) ^^^ (x >>> 10)

def chFn (x y z : Nat) : Nat := (x &&& y) ^^^ ((x ^^^ 4294967295) &&& z)

def majFn (x y z : Nat) : Nat := (x &&& y) ^^^ (x &&& z) ^^^ (y &&& z)

/-- The 64 SHA-256 round constants, written in decimal. -/
def K256 : List Nat :=
  [1116352408, 1899447441, 3049323471, 3921009573, 961987163, 1508970993,
   2453635748, 2870763221, 3624381080, 310598401, 607225278, 1426881987,
   1925078388, 2162078206, 2614888103, 3248222580, 3835390401, 4022224774,
   264347078, 604807628, 770255983, 1249150122, 1555081692, 1996064986,
   2554220882, 2821834349, 2952996808, 3210313671, 3336571891, 3584528711,
   113926993, 338241895, 666307205, 773529912, 1294757372, 1396182291,
   1695183700, 1986661051, 2177026350, 2456956037, 2730485921, 2820302411,
   3259730800, 3345764771, 3516065817, 3600352804, 4094571909, 275423344,
   430227734, 506948616, 659060556, 883997877, 958139571, 1322822218,
   1537002063, 1747873779, 1955562222, 2024104815, 2227730452, 2361852424,
   2428436474, 2756734187, 3204031479, 3329325298]

/-- Big-endian 8-byte encoding of a (64-bit) length. -/
def be64 (n : Nat) : List Nat :=
  [(n >>> 56) &&& 255, (n >>> 48) &&& 255, (n >>> 40) &&& 255, (n >>> 32) &&& 255,
   (n >>> 24) &&& 255, (n >>> 16) &&& 255, (n >>> 8) &&& 255, n &&& 255]

/-- SHA-256 padding: append `0x80`, zero bytes to 56 mod 64, then the bit length. -/
def padBytes (msg : List Nat) : List Nat :=
  let L := msg.length
  let k := (119 - (L % 64)) % 64
  msg ++ (128 :: List.replicate k 0) ++ be64 (8 * L)

/-- Group bytes into big-endian 32-bit words. -/
def toWords : List Nat → List Nat
  | b0 :: b1 :: b2 :: b3 :: rest =>
      ((((b0 <<< 8) ||| b1) <<< 8 ||| b2) <<< 8 ||| b3) :: toWords rest
  | _ => []

/-- Message-schedule extension, on the reversed word list (newest first). -/
def scheduleAux : Nat → List Nat → List Nat
  | 0, rw => rw
  | n + 1, rw =>
      scheduleAux n
        (w32 (ssig1 (rw.getD 1 0) + rw.getD 6 0 + ssig0 (rw.getD 14 0) + rw.getD 15 0) :: rw)

/-- The 64-entry message schedule of a 16-word block. -/
def schedule (block : List Nat) : List Nat := (scheduleAux 48 block.reverse).reverse

/-- The eight 32-bit working variables of SHA-256. -/
structure H8 where
  a : Nat
  b : Nat
  c : Nat
  d : Nat
  e : Nat
  f : Nat
  g : Nat
  h : Nat
deriving DecidableEq

/-- Initial SHA-256 hash value. -/
def initH : H8 :=
  ⟨1779033703, 3144134277, 1013904242, 2773480762, 1359893119, 2600822924, 528734635, 1541459225⟩

/-- One SHA-256 compression round. -/
def sha256Round (s : H8) (k w : Nat) : H8 :=
  let t1 := w32 (s.h + bsig1 s.e + chFn s.e s.f s.g + k + w)
  let t2 := w32 (bsig0 s.a + majFn s.a s.b s.c)
  ⟨w32 (t1 + t2), s.a, s.b, s.c, w32 (s.d + t1), s.e, s.f, s.g⟩

/-- Compress one 16-word block into the running hash. -/
def compressBlock (s : H8) (block : List Nat) : H8 :=
  let ws := schedule block
  let t := (K256.zip ws).foldl (fun st kw => sha256Round st kw.1 kw.2) s
  ⟨w32 (s.a + t.a), w32 (s.b + t.b), w32 (s.c + t.c), w32 (s.d + t.d),
   w32 (s.e + t.e), w32 (s.f + t.f), w32 (s.g + t.g), w32 (s.h + t.h)⟩

/-- Accumulator-based chunking: `acc` is the current partial chunk, `k` the
remaining capacity of that chunk. -/
def chunksAux {α : Type} (n : Nat) : List α → List α → Nat → List (List α)
  | [], acc, _ => if acc.isEmpty then [] else [acc]
  | x :: xs, acc, k =>
      if k ≤ 1 then (acc ++ [x]) :: chunksAux n xs [] n
      else chunksAux n xs (acc ++ [x]) (k - 1)

/-- Split a list into consecutive chunks of `n` elements (last may be shorter). -/
def chunksOf {α : Type} (n : Nat) (l : List α) : List (List α) := chunksAux n l [] n

/-- The eight words of the SHA-256 digest of a byte string. -/
def sha256Words (msg : List Nat) : List Nat :=
  let blocks := chunksOf 16 (toWords (padBytes msg))
  let t := blocks.foldl compressBlock initH
  [t.a, t.b, t.c, t.d, t.e, t.f, t.g, t.h]

/-- Lower-case hex digit for a value below 16. -/
def hexDigit (n : Nat) : Char := if n < 10 then Char.ofNat (48 + n) else Char.ofNat (87 + n)

/-- Eight hex characters of one 32-bit word. -/
def word8Hex (w : Nat) : List Char :=
  [hexDigit ((w >>> 28) &&& 15), hexDigit ((w >>> 24) &&& 15), hexDigit ((w >>> 20) &&& 15),
   hexDigit ((w >>> 16) &&& 15), hexDigit ((w >>> 12) &&& 15), hexDigit ((w >>> 8) &&& 15),
   hexDigit ((w >>> 4) &&& 15), hexDigit (w &&& 15)]

/-- `hashlib.sha256(bytes).hexdigest()`. -/
def sha256Hex (msg : List Nat) : String := ⟨((sha256Words msg).map word8Hex).flatten⟩

/-- `_file_id` from the source: SHA-256 hex digest of the UTF-8 bytes of a path. -/
def fileId (filepath : String) : String := sha256Hex (strBytes filepath)

/-! ### File-system model and the directory walker -/

/-- A file as the walker observes it: its name, its size on disk, and its
content when it decodes as strict UTF-8 (`none` models a `UnicodeDecodeError`
or `OSError` in `_read_text`). -/
structure FileEntry where
  fname : String
  size : Nat
  text : Option String
deriving DecidableEq

mutual
/-- A directory: its plain files and its subdirectories, in `os.walk` order. -/
inductive DirTree where
  | node : List FileEntry → DirList → DirTree

/-- A list of named subdirectories. -/
inductive DirList where
  | dnil : DirList
  | dcons : String → DirTree → DirList → DirList
end

/-- `os.path.relpath(filepath, directory)` for a file at components `rd`
below the root: the components joined by `/`. -/
def relpathOf (rd : List String) (fname : String) : String :=
  String.intercalate "/" (rd ++ [fname])

/-- `os.path.join(root, fname)`: the absolute path of a file at components
`rd` below the (absolute, slash-free-tail) root `top`. -/
def filepathOf (top : String) (rd : List String) (fname : String) : String :=
  String.intercalate "/" (top :: (rd ++ [fname]))

/-- `_should_skip_file` from the source: reject when the lower-cased extension
is binary, then when the size is zero or above `MAX_FILE_SIZE`. -/
def shouldSkipFile (filepath : String) (size : Nat) : Bool :=
  if strLower (splitextExt filepath) ∈ BINARY_EXTENSIONS then true
  else size == 0 || decide (MAX_FILE_SIZE < size)

/-- One record of the `ids` / `documents` / `metadatas` triple built by
`walk_and_index`. -/
structure FileRecord where
  rid : String
  doc : String
  rpath : String
deriving DecidableEq

/-- The record a file contributes, if any: `none` when a filter rejects it,
`some` with the `_file_id`-derived id otherwise. -/
def recOf (top : String) (rd : List String) (f : FileEntry) : Option FileRecord :=
  if shouldSkipFile (filepathOf top rd f.fname) f.size then none
  else
    match f.text with
    | none => none
    | some content =>
        let rp := relpathOf rd f.fname
        some ⟨fileId rp, content, rp⟩

/-- Which of the per-file checks decides a file's fate, in source order:
binary extension, then size, then UTF-8 decoding, else indexing. -/
inductive Decision where
  | skipBinary : Decision
  | skipSize : Decision
  | skipNonUtf8 : Decision
  | indexedFile : Decision
deriving DecidableEq

/-- The decision taken for a file, following the check order of the source. -/
def decisionOf (top : String) (rd : List String) (f : FileEntry) : Decision :=
  if strLower (splitextExt (filepathOf top rd f.fname)) ∈ BINARY_EXTENSIONS then .skipBinary
  else if f.size == 0 || decide (MAX_FILE_SIZE < f.size) then .skipSize
  else
    match f.text with
    | none => .skipNonUtf8
    | some _ => .indexedFile

/-- The line printed for a decision (the three `print` sites of the walker). -/
def logLineOf (d : Decision) (fp rp : String) : String :=
  match d with
  | .skipBinary => "  skip  " ++ fp
  | .skipSize => "  skip  " ++ fp
  | .skipNonUtf8 => "  skip  " ++ fp ++ " (not utf-8)"
  | .indexedFile => "  index " ++ rp

/-- The verbose-mode output a single file produces. -/
def logOf (vb : Bool) (top : String) (rd : List String) (f : FileEntry) : List String :=
  let fp := filepathOf top rd f.fname
  if shouldSkipFile fp f.size then (if vb then ["  skip  " ++ fp] else [])
  else
    match f.text with
    | none => if vb then ["  skip  " ++ fp ++ " (not utf-8)"] else []
    | some _ => if vb then ["  index " ++ relpathOf rd f.fname] else []

/-- Mutable state of `walk_and_index`: the current buffer (the parallel
`ids` / `documents` / `metadatas` lists, fused), the upsert calls already
issued, and the lines printed so far. -/
structure WState where
  buf : List FileRecord
  batches : List (List FileRecord)
  log : List String
deriving DecidableEq

/-- The per-file body of the walker loop: filter, log, append, and flush the
buffer as one upsert once it holds 50 records. -/
def processFile (vb : Bool) (top : String) (rd : List String) (f : FileEntry) (s : WState) :
    WState :=
  let fp := filepathOf top rd f.fname
  if shouldSkipFile fp f.size then
    { s with log := s.log ++ (if vb then ["  skip  " ++ fp] else []) }
  else
    match f.text with
    | none => { s with log := s.log ++ (if vb then ["  skip  " ++ fp ++ " (not utf-8)"] else []) }
    | some content =>
        let rp := relpathOf rd f.fname
        let r : FileRecord := ⟨fileId rp, content, rp⟩
        let buf2 := s.buf ++ [r]
        let log2 := s.log ++ (if vb then ["  index " ++ rp] else [])
        if 50 ≤ buf2.length then ⟨[], s.batches ++ [buf2], log2⟩
        else ⟨buf2, s.batches, log2⟩

mutual
/-- `os.walk` top-down: process the files of the current directory, then
descend into the subdirectories that survive pruning. -/
def walkT (vb : Bool) (top : String) : List String → DirTree → WState → WState
  | rd, .node files subs, s =>
      walkL vb top rd subs (files.foldl (fun s2 f => processFile vb top rd f s2) s)

/-- Traversal of a subdirectory list; names in `SKIP_DIRS` are pruned, so
their subtrees are never descended into and contribute nothing to the state. -/
def walkL (vb : Bool) (top : String) : List String → DirList → WState → WState
  | _, .dnil, s => s
  | rd, .dcons d t rest, s =>
      walkL vb top rd rest (if d ∈ SKIP_DIRS then s else walkT vb top (rd ++ [d]) t s)
end

/-- `walk_and_index`: walk the tree from an empty state, then flush any
non-empty remainder as a final upsert. -/
def walkAndIndex (vb : Bool) (top : String) (t : DirTree) : WState :=
  let s := walkT vb top [] t ⟨[], [], []⟩
  if s.buf.isEmpty then s else ⟨[], s.batches ++ [s.buf], s.log⟩

/-- The sequence of upsert calls `walk_and_index` issues, in order. -/
def upsertCalls (vb : Bool) (top : String) (t : DirTree) : List (List FileRecord) :=
  (walkAndIndex vb top t).batches

mutual
/-- The files the traversal visits, with their directory components, in
visit order; subtrees named in `SKIP_DIRS` contribute nothing. -/
def entriesT : List String → DirTree → List (List String × FileEntry)
  | rd, .node files subs => files.map (fun f => (rd, f)) ++ entriesL rd subs

/-- Entries contributed by a subdirectory list. -/
def entriesL : List String → DirList → List (List String × FileEntry)
  | _, .dnil => []
  | rd, .dcons d t rest =>
      (if d ∈ SKIP_DIRS then [] else entriesT (rd ++ [d]) t) ++ entriesL rd rest
end

/-- All records an index run upserts, in order. -/
def indexRecords (top : String) (t : DirTree) : List FileRecord :=
  (entriesT [] t).filterMap (fun e => recOf top e.1 e.2)

/-- All lines an index run prints for per-file decisions, in order. -/
def indexLog (vb : Bool) (top : String) (t : DirTree) : List String :=
  ((entriesT [] t).map (fun e => logOf vb top e.1 e.2)).flatten

/-- All records a state has accumulated: flushed batches, then the buffer. -/
def stRecs (s : WState) : List FileRecord := s.batches.flatten ++ s.buf

/-- Invariant of the walker state: every issued upsert held exactly 50
records, and the buffer is strictly below 50. -/
def goodState (s : WState) : Prop :=
  (∀ b ∈ s.batches, b.length = 50) ∧ s.buf.length < 50

/-! ### The query side -/

/-- The external vector store, abstracted to the interface `query_collection`
consumes: its record count, and the ranked `(path, distance)` results of a
similarity search.  Distances are modelled as exact rationals. -/
structure Store where
  count : Nat
  search : String → Nat → List (String × Rat)

/-- Observable outcome of `query_collection`: an error on standard error with
an exit code, or the lines printed to standard output. -/
inductive QueryOut where
  | exitErr : String → Nat → QueryOut
  | printed : List String → QueryOut
deriving DecidableEq

/-- Round `m / d` to the nearest integer, ties to even (`d > 0`). -/
def roundHalfEvenDiv (m d : Nat) : Nat :=
  let q := m / d
  let r := m % d
  if 2 * r < d then q
  else if d < 2 * r then q + 1
  else if q % 2 = 0 then q else q + 1

/-- Left-pad the decimal representation of `n` with zeros to 4 digits. -/
def pad4 (n : Nat) : String :=
  let s := toString n
  ⟨List.replicate (4 - s.length) '0'⟩ ++ s

/-- Python `f"{x:+.4f}"`: explicit sign, 4 decimal places, ties to even. -/
def formatScore (x : Rat) : String :=
  let sign := if x < 0 then "-" else "+"
  let k := roundHalfEvenDiv (x.num.natAbs * 10000) x.den
  sign ++ toString (k / 10000) ++ "." ++ pad4 (k % 10000)

/-- `1 - d` on rationals, computed on the `num`/`den` representation (the
subtraction instance of `Rat` is irreducible, which would block evaluation). -/
def oneMinus (d : Rat) : Rat := mkRat ((d.den : Int) - d.num) d.den

/-- The line printed for one query result: signed 4-decimal similarity score
(`1 - distance`), two spaces, the stored relative path. -/
def renderResult (r : String × Rat) : String :=
  formatScore (oneMinus r.2) ++ "  " ++ r.1

/-- `query_collection`: reject an empty collection with an error on standard
error and exit code 1; otherwise render the search results in order. -/
def queryCollection (st : Store) (q : String) (n : Nat) : QueryOut :=
  if st.count = 0 then .exitErr "Collection is empty. Run --index first." 1
  else .printed ((st.search q n).map renderResult)

/-! ### `main` dispatch -/

/-- What a `main` invocation does after argument validation. -/
inductive MainEffect where
  | indexedDir : MainEffect
  | queried : QueryOut → MainEffect
  | noAction : MainEffect
deriving DecidableEq

/-- The `if args.index: ... elif args.query: ...` dispatch of `main`; the
`elif` tests Python truthiness, so an empty query string takes no branch. -/
def mainRun (indexFlag : Bool) (queryArg : Option String) (n : Nat) (st : Store) : MainEffect :=
  if indexFlag then .indexedDir
  else
    match queryArg with
    | some q => if q ≠ "" then .queried (queryCollection st q n) else .noAction
    | none => .noAction
/-! ### Concrete fixtures used to evaluate the development -/

/-- A small directory: one indexable file, one file per rejection reason, and
a `.git` subdirectory that must be pruned. -/
def demoTree1 : DirTree :=
  .node
    [⟨"good.txt", 5, some "hello"⟩,
     ⟨"img.png", 5, some "x"⟩,
     ⟨"empty.txt", 0, some ""⟩,
     ⟨"big.txt", 2000000, some "y"⟩,
     ⟨"bin.dat", 7, some "z"⟩,
     ⟨"notutf.txt", 3, none⟩]
    (.dcons ".git" (.node [⟨"hidden.txt", 3, some "h"⟩] .dnil) .dnil)

/-- The same relative path `good.txt` as in `demoTree1`, different content. -/
def demoTree2 : DirTree := .node [⟨"good.txt", 7, some "world"⟩] .dnil

/-- 120 distinct qualifying text files. -/
def files120 : List FileEntry :=
  (List.range 120).map (fun i => ⟨"f" ++ toString i ++ ".txt", 1, some "x"⟩)

/-- A flat directory of 120 qualifying files. -/
def tree120 : DirTree := .node files120 .dnil

/-! ### Theorems -/

/-- FIPS 180-4 test vector: the digest of `"abc"`. -/
theorem sha256Hex_abc :
    sha256Hex (strBytes "abc")
      = "ba7816bf8f01cfea414140de5dae2223b00361a396177a9cb410ff61f20015ad" := by
  decide

/-- FIPS 180-4 test vector: the digest of the empty message. -/
theorem sha256Hex_empty :
    sha256Hex [] = "e3b0c44298fc1c149afbf4c8996fb92427ae41e4649b934ca495991b7852b855" := by
  decide

/-- `oneMinus` is subtraction from 1. -/
theorem oneMinus_eq (d : Rat) : oneMinus d = 1 - d := by
  have hden : (d.den : Rat) ≠ 0 := by
    exact_mod_cast d.den_nz
  rw [oneMinus, Rat.mkRat_eq_div]
  push_cast
  rw [sub_div, div_self hden, Rat.num_div_den]

/-! ### Characterisation of the batching state machine -/

theorem goodState_init : goodState ⟨[], [], []⟩ := by
  constructor
  · intro b hb
    simp at hb
  · simp

theorem chunksAux_short {α : Type} (n : Nat) :
    ∀ (l acc : List α) (k : Nat), l.length < k →
      chunksAux n l acc k = if (acc ++ l).isEmpty then [] else [acc ++ l] := by
  intro l
  induction l with
  | nil =>
      intro acc k _
      rw [List.append_nil]
      simp [chunksAux]
  | cons x xs ih =>
      intro acc k hk
      have hk2 : ¬ k ≤ 1 := by
        simp at hk ⊢
        omega
      have h2 := ih (acc ++ [x]) (k - 1) (by simp at hk ⊢; omega)
      simp only [chunksAux, hk2, if_false]
      simpa [List.append_assoc] using h2

theorem chunksAux_flush {α : Type} (n : Nat) :
    ∀ (l r acc : List α) (k : Nat), l.length = k → 1 ≤ k →
      chunksAux n (l ++ r) acc k = (acc ++ l) :: chunksAux n r [] n := by
  intro l
  induction l with
  | nil =>
      intro r acc k hlen hk
      simp at hlen
      omega
  | cons x xs ih =>
      intro r acc k hlen hk
      by_cases h1 : k ≤ 1
      · have hxs : xs = [] := by
          simp at hlen
          have hk1 : k = 1 := by omega
          rw [hk1] at hlen
          have : xs.length = 0 := by omega
          exact List.eq_nil_of_length_eq_zero this
        subst hxs
        simp [chunksAux, h1]
      · have hxl : xs.length = k - 1 := by simp at hlen; omega
        have h2 := ih r (acc ++ [x]) (k - 1) hxl (by omega)
        simp only [List.cons_append, chunksAux, h1, if_false]
        simpa [List.append_assoc] using h2

theorem chunksOf_exact {α : Type} (n : Nat) (l r : List α) (hlen : l.length = n)
    (hn : 1 ≤ n) : chunksOf n (l ++ r) = l :: chunksOf n r := by
  simp [chunksOf, chunksAux_flush n l r [] n hlen hn]

theorem chunksOf_short {α : Type} (n : Nat) (l : List α) (hlen : l.length < n) :
    chunksOf n l = if l.isEmpty then [] else [l] := by
  simp [chunksOf, chunksAux_short n l [] n hlen]

theorem chunksOf_map_length_120 {α : Type} (l : List α) (h : l.length = 120) :
    (chunksOf 50 l).map List.length = [50, 50, 20] := by
  have h1 : (l.take 50).length = 50 := by simp [h]
  have e1 : chunksOf 50 l = l.take 50 :: chunksOf 50 (l.drop 50) := by
    conv_lhs => rw [← List.take_append_drop 50 l]
    exact chunksOf_exact 50 _ _ h1 (by omega)
  have hd1 : (l.drop 50).length = 70 := by simp [h]
  have h2 : ((l.drop 50).take 50).length = 50 := by simp [hd1]
  have e2 : chunksOf 50 (l.drop 50)
      = (l.drop 50).take 50 :: chunksOf 50 ((l.drop 50).drop 50) := by
    conv_lhs => rw [← List.take_append_drop 50 (l.drop 50)]
    exact chunksOf_exact 50 _ _ h2 (by omega)
  have hd2 : ((l.drop 50).drop 50).length = 20 := by
    rw [List.length_drop, hd1]
  have e3 : chunksOf 50 ((l.drop 50).drop 50) = [(l.drop 50).drop 50] := by
    rw [chunksOf_short 50 _ (by rw [hd2]; omega)]
    cases hl : (l.drop 50).drop 50 with
    | nil => rw [hl] at hd2; simp at hd2
    | cons a as => simp
  rw [e1, e2, e3]
  simp only [List.map_cons, List.map_nil, h1, h2, hd2]

theorem batches_eq_chunks :
    ∀ (bs : List (List FileRecord)) (buf : List FileRecord),
      (∀ b ∈ bs, b.length = 50) → buf.length < 50 →
      bs ++ (if buf.isEmpty then [] else [buf]) = chunksOf 50 (bs.flatten ++ buf) := by
  intro bs
  induction bs with
  | nil =>
      intro buf _ hlt
      simp only [List.flatten_nil, List.nil_append]
      rw [chunksOf_short 50 buf hlt]
  | cons b bs ih =>
      intro buf hall hlt
      have hb : b.length = 50 := hall b (by simp)
      have e : chunksOf 50 ((b :: bs).flatten ++ buf)
          = b :: chunksOf 50 (bs.flatten ++ buf) := by
        have hjoin : (b :: bs).flatten ++ buf = b ++ (bs.flatten ++ buf) := by simp
        rw [hjoin]
        exact chunksOf_exact 50 b _ hb (by omega)
      rw [e, ← ih buf (fun x hx => hall x (by simp [hx])) hlt]
      simp

/-! ### Per-file step lemmas -/

theorem processFile_stRecs (vb : Bool) (top : String) (rd : List String) (f : FileEntry)
    (s : WState) :
    stRecs (processFile vb top rd f s) = stRecs s ++ (recOf top rd f).toList := by
  cases hsk : shouldSkipFile (filepathOf top rd f.fname) f.size with
  | true => simp [processFile, recOf, hsk, stRecs]
  | false =>
      cases htext : f.text with
      | none => simp [processFile, recOf, hsk, htext, stRecs]
      | some content =>
          by_cases hfl : 49 ≤ s.buf.length
          · simp [processFile, recOf, hsk, htext, hfl, stRecs]
          · simp [processFile, recOf, hsk, htext, hfl, stRecs]

theorem processFile_log (vb : Bool) (top : String) (rd : List String) (f : FileEntry)
    (s : WState) :
    (processFile vb top rd f s).log = s.log ++ logOf vb top rd f := by
  cases hsk : shouldSkipFile (filepathOf top rd f.fname) f.size with
  | true => simp [processFile, logOf, hsk]
  | false =>
      cases htext : f.text with
      | none => simp [processFile, logOf, hsk, htext]
      | some content =>
          by_cases hfl : 49 ≤ s.buf.length
          · simp [processFile, logOf, hsk, htext, hfl]
          · simp [processFile, logOf, hsk, htext, hfl]

theorem processFile_good (vb : Bool) (top : String) (rd : List String) (f : FileEntry)
    (s : WState) (hs : goodState s) : goodState (processFile vb top rd f s) := by
  obtain ⟨hb, hlt⟩ := hs
  cases hsk : shouldSkipFile (filepathOf top rd f.fname) f.size with
  | true => exact ⟨by simpa [processFile, hsk] using hb, by simpa [processFile, hsk] using hlt⟩
  | false =>
      cases htext : f.text with
      | none =>
          exact ⟨by simpa [processFile, hsk, htext] using hb,
            by simpa [processFile, hsk, htext] using hlt⟩
      | some content =>
          by_cases hfl : 49 ≤ s.buf.length
          · refine ⟨?_, ?_⟩
            · intro b hbmem
              simp [processFile, hsk, htext, hfl] at hbmem
              rcases hbmem with hbmem | hbmem
              · exact hb b hbmem
              · rw [hbmem]
                simp
                omega
            · simp [processFile, hsk, htext, hfl]
          · refine ⟨?_, ?_⟩
            · intro b hbmem
              simp [processFile, hsk, htext, hfl] at hbmem
              exact hb b hbmem
            · simp [processFile, hsk, htext, hfl]
              omega


/-! ### Traversal characterisation -/

theorem walkT_node (vb : Bool) (top : String) (rd : List String) (files : List FileEntry)
    (subs : DirList) (s : WState) :
    walkT vb top rd (.node files subs) s
      = walkL vb top rd subs (files.foldl (fun s2 f => processFile vb top rd f s2) s) := rfl

theorem walkL_dnil (vb : Bool) (top : String) (rd : List String) (s : WState) :
    walkL vb top rd .dnil s = s := rfl

theorem walkL_dcons (vb : Bool) (top : String) (rd : List String) (d : String) (t : DirTree)
    (rest : DirList) (s : WState) :
    walkL vb top rd (.dcons d t rest) s
      = walkL vb top rd rest (if d ∈ SKIP_DIRS then s else walkT vb top (rd ++ [d]) t s) := rfl

theorem foldlProcess_stRecs (vb : Bool) (top : String) (rd : List String) :
    ∀ (files : List FileEntry) (s : WState),
      stRecs (files.foldl (fun s2 f => processFile vb top rd f s2) s)
        = stRecs s ++ files.filterMap (recOf top rd) := by
  intro files
  induction files with
  | nil => intro s; simp
  | cons f fs ih =>
      intro s
      rw [List.foldl_cons, ih, processFile_stRecs]
      cases h : recOf top rd f with
      | none => simp [h]
      | some r => simp [h]

theorem foldlProcess_log (vb : Bool) (top : String) (rd : List String) :
    ∀ (files : List FileEntry) (s : WState),
      (files.foldl (fun s2 f => processFile vb top rd f s2) s).log
        = s.log ++ (files.map (logOf vb top rd)).flatten := by
  intro files
  induction files with
  | nil => intro s; simp
  | cons f fs ih =>
      intro s
      rw [List.foldl_cons, ih, processFile_log]
      simp

theorem foldlProcess_good (vb : Bool) (top : String) (rd : List String) :
    ∀ (files : List FileEntry) (s : WState), goodState s →
      goodState (files.foldl (fun s2 f => processFile vb top rd f s2) s) := by
  intro files
  induction files with
  | nil => intro s hs; simpa using hs
  | cons f fs ih =>
      intro s hs
      rw [List.foldl_cons]
      exact ih _ (processFile_good vb top rd f s hs)

mutual
theorem walkT_char (vb : Bool) (top : String) (rd : List String) (t : DirTree) (s : WState) :
    stRecs (walkT vb top rd t s)
        = stRecs s ++ (entriesT rd t).filterMap (fun e => recOf top e.1 e.2)
      ∧ (walkT vb top rd t s).log
        = s.log ++ ((entriesT rd t).map (fun e => logOf vb top e.1 e.2)).flatten
      ∧ (goodState s → goodState (walkT vb top rd t s)) := by
  match t with
  | .node files subs =>
      have hsub := walkL_char vb top rd subs
        (files.foldl (fun s2 f => processFile vb top rd f s2) s)
      refine ⟨?_, ?_, ?_⟩
      · rw [walkT_node, hsub.1, foldlProcess_stRecs]
        simp [entriesT, List.filterMap_append, List.filterMap_map, Function.comp_def]
      · rw [walkT_node, hsub.2.1, foldlProcess_log]
        simp [entriesT, List.map_append, List.map_map, Function.comp_def]
      · intro hs
        rw [walkT_node]
        exact hsub.2.2 (foldlProcess_good vb top rd files s hs)

theorem walkL_char (vb : Bool) (top : String) (rd : List String) (l : DirList) (s : WState) :
    stRecs (walkL vb top rd l s)
        = stRecs s ++ (entriesL rd l).filterMap (fun e => recOf top e.1 e.2)
      ∧ (walkL vb top rd l s).log
        = s.log ++ ((entriesL rd l).map (fun e => logOf vb top e.1 e.2)).flatten
      ∧ (goodState s → goodState (walkL vb top rd l s)) := by
  match l with
  | .dnil => simp [walkL_dnil, entriesL]
  | .dcons d t rest =>
      by_cases hd : d ∈ SKIP_DIRS
      · have hrest := walkL_char vb top rd rest s
        refine ⟨?_, ?_, ?_⟩
        · rw [walkL_dcons, if_pos hd, hrest.1]
          simp [entriesL, hd]
        · rw [walkL_dcons, if_pos hd, hrest.2.1]
          simp [entriesL, hd]
        · intro hs
          rw [walkL_dcons, if_pos hd]
          exact hrest.2.2 hs
      · have ht := walkT_char vb top (rd ++ [d]) t s
        have hrest := walkL_char vb top rd rest (walkT vb top (rd ++ [d]) t s)
        refine ⟨?_, ?_, ?_⟩
        · rw [walkL_dcons, if_neg hd, hrest.1, ht.1]
          simp [entriesL, hd, List.filterMap_append]
        · rw [walkL_dcons, if_neg hd, hrest.2.1, ht.2.1]
          simp [entriesL, hd, List.map_append]
        · intro hs
          rw [walkL_dcons, if_neg hd]
          exact hrest.2.2 (ht.2.2 hs)
end

theorem walkAndIndex_batches (vb : Bool) (top : String) (t : DirTree) :
    upsertCalls vb top t = chunksOf 50 (indexRecords top t) := by
  have hchar := walkT_char vb top [] t ⟨[], [], []⟩
  have hgood : goodState (walkT vb top [] t ⟨[], [], []⟩) := hchar.2.2 goodState_init
  have hb := batches_eq_chunks (walkT vb top [] t ⟨[], [], []⟩).batches
    (walkT vb top [] t ⟨[], [], []⟩).buf hgood.1 hgood.2
  have hrecs : (walkT vb top [] t ⟨[], [], []⟩).batches.flatten
      ++ (walkT vb top [] t ⟨[], [], []⟩).buf = indexRecords top t := by
    have h1 := hchar.1
    simp only [stRecs] at h1
    simpa [indexRecords] using h1
  rw [hrecs] at hb
  unfold upsertCalls walkAndIndex
  by_cases hbuf : (walkT vb top [] t ⟨[], [], []⟩).buf.isEmpty
  · rw [if_pos hbuf, ← hb, if_pos hbuf]
    simp
  · rw [if_neg hbuf, ← hb, if_neg hbuf]

theorem walkAndIndex_log (vb : Bool) (top : String) (t : DirTree) :
    (walkAndIndex vb top t).log = indexLog vb top t := by
  have hchar := walkT_char vb top [] t ⟨[], [], []⟩
  have hlog : (walkT vb top [] t ⟨[], [], []⟩).log
      = ((entriesT [] t).map (fun e => logOf vb top e.1 e.2)).flatten := by
    have h1 := hchar.2.1
    simpa using h1
  unfold walkAndIndex indexLog
  by_cases hbuf : (walkT vb top [] t ⟨[], [], []⟩).buf.isEmpty
  · rw [if_pos hbuf]
    exact hlog
  · rw [if_neg hbuf]
    exact hlog

/-! ### Filter inversions -/

theorem shouldSkipFile_false_inv (fp : String) (sz : Nat)
    (h : shouldSkipFile fp sz = false) :
    strLower (splitextExt fp) ∉ BINARY_EXTENSIONS ∧ sz ≠ 0 ∧ sz ≤ MAX_FILE_SIZE := by
  by_cases hext : strLower (splitextExt fp) ∈ BINARY_EXTENSIONS
  · rw [shouldSkipFile, if_pos hext] at h
    exact absurd h (by simp)
  · rw [shouldSkipFile, if_neg hext] at h
    simp at h
    exact ⟨hext, h.1, by omega⟩

theorem recOf_some_inv (top : String) (rd : List String) (f : FileEntry) (r : FileRecord)
    (h : recOf top rd f = some r) :
    shouldSkipFile (filepathOf top rd f.fname) f.size = false
    ∧ ∃ c, f.text = some c
        ∧ r = ⟨fileId (relpathOf rd f.fname), c, relpathOf rd f.fname⟩ := by
  cases hsk : shouldSkipFile (filepathOf top rd f.fname) f.size with
  | true =>
      rw [recOf, if_pos hsk] at h
      exact absurd h (by simp)
  | false =>
      cases htext : f.text with
      | none =>
          rw [recOf, if_neg (by simp [hsk]), htext] at h
          exact absurd h (by simp)
      | some c =>
          rw [recOf, if_neg (by simp [hsk]), htext] at h
          refine ⟨rfl, c, rfl, ?_⟩
          simpa using h.symm

mutual
theorem entriesT_no_skip (rd : List String) (hrd : ∀ c ∈ rd, c ∉ SKIP_DIRS) (t : DirTree) :
    ∀ e ∈ entriesT rd t, ∀ c ∈ e.1, c ∉ SKIP_DIRS := by
  match t with
  | .node files subs =>
      intro e he
      simp only [entriesT] at he
      rcases List.mem_append.mp he with h | h
      · obtain ⟨f, _, hef⟩ := List.mem_map.mp h
        rw [← hef]
        exact hrd
      · exact entriesL_no_skip rd hrd subs e h

theorem entriesL_no_skip (rd : List String) (hrd : ∀ c ∈ rd, c ∉ SKIP_DIRS) (l : DirList) :
    ∀ e ∈ entriesL rd l, ∀ c ∈ e.1, c ∉ SKIP_DIRS := by
  match l with
  | .dnil =>
      intro e he
      simp [entriesL] at he
  | .dcons d t rest =>
      intro e he
      simp only [entriesL] at he
      rcases List.mem_append.mp he with h | h
      · by_cases hd : d ∈ SKIP_DIRS
        · rw [if_pos hd] at h
          simp at h
        · rw [if_neg hd] at h
          refine entriesT_no_skip (rd ++ [d]) ?_ t e h
          intro c hc
          rcases List.mem_append.mp hc with hc | hc
          · exact hrd c hc
          · simp at hc
            rw [hc]
            exact hd
      · exact entriesL_no_skip rd hrd rest e h
end

/-! ### Verbose-log shape -/

theorem logOf_true (top : String) (rd : List String) (f : FileEntry) :
    logOf true top rd f
      = [logLineOf (decisionOf top rd f) (filepathOf top rd f.fname) (relpathOf rd f.fname)] := by
  by_cases hext : strLower (splitextExt (filepathOf top rd f.fname)) ∈ BINARY_EXTENSIONS
  · have hsk : shouldSkipFile (filepathOf top rd f.fname) f.size = true := by
      simp [shouldSkipFile, hext]
    simp [logOf, hsk, decisionOf, hext, logLineOf]
  · cases hsz : (f.size == 0 || decide (MAX_FILE_SIZE < f.size)) with
    | true =>
        have hsk : shouldSkipFile (filepathOf top rd f.fname) f.size = true := by
          rw [shouldSkipFile, if_neg hext]
          exact hsz
        simp [logOf, hsk, decisionOf, hext, hsz, logLineOf]
    | false =>
        have hsk : shouldSkipFile (filepathOf top rd f.fname) f.size = false := by
          rw [shouldSkipFile, if_neg hext]
          exact hsz
        cases htext : f.text with
        | none => simp [logOf, hsk, decisionOf, hext, hsz, htext, logLineOf]
        | some c => simp [logOf, hsk, decisionOf, hext, hsz, htext, logLineOf]

theorem logOf_false (top : String) (rd : List String) (f : FileEntry) :
    logOf false top rd f = [] := by
  rw [logOf]
  split
  · simp
  · split <;> simp

theorem flatten_map_singleton {β γ : Type} (l : List β) (g : β → γ) :
    (l.map (fun e => [g e])).flatten = l.map g := by
  induction l with
  | nil => simp
  | cons x xs ih => simp [ih]

theorem flatten_map_nil {β γ : Type} (l : List β) :
    (l.map (fun _ => ([] : List γ))).flatten = [] := by
  induction l with
  | nil => simp
  | cons x xs ih => simp [ih]

/-! ### Claim theorems -/

/-- C1: the record id computed during indexing is the SHA-256 hex digest
(`fileId` = `sha256Hex` of the UTF-8 bytes) of the relative path alone, so it
is content-independent: any two records with the same relative path, produced
from any directory trees and file contents, carry the identical id. -/
theorem file_id_content_independent :
    (∀ top t r, r ∈ indexRecords top t → r.rid = fileId r.rpath)
    ∧ (∀ top1 top2 t1 t2 r1 r2,
        r1 ∈ indexRecords top1 t1 → r2 ∈ indexRecords top2 t2 →
        r1.rpath = r2.rpath → r1.rid = r2.rid) := by
  have hmain : ∀ top t r, r ∈ indexRecords top t → r.rid = fileId r.rpath := by
    intro top t r hr
    rw [indexRecords] at hr
    obtain ⟨e, _, hsome⟩ := List.mem_filterMap.mp hr
    obtain ⟨_, c, _, hrec⟩ := recOf_some_inv top e.1 e.2 r hsome
    rw [hrec]
  refine ⟨hmain, ?_⟩
  intro top1 top2 t1 t2 r1 r2 h1 h2 hpath
  rw [hmain top1 t1 r1 h1, hmain top2 t2 r2 h2, hpath]

theorem file_id_content_independent_witness :
    (⟨fileId "good.txt", "hello", "good.txt"⟩ : FileRecord) ∈ indexRecords "/r1" demoTree1
    ∧ (⟨fileId "good.txt", "world", "good.txt"⟩ : FileRecord) ∈ indexRecords "/r2" demoTree2
    ∧ (⟨fileId "good.txt", "hello", "good.txt"⟩ : FileRecord).rid
        = (⟨fileId "good.txt", "world", "good.txt"⟩ : FileRecord).rid := by
  refine ⟨by decide, by decide, ?_⟩
  exact file_id_content_independent.2 "/r1" "/r2" demoTree1 demoTree2 _ _
    (by decide) (by decide) rfl

/-- C2: the upsert calls of an index run are exactly the 50-record chunks of
the filtered record sequence, in order (a flush exactly when 50 records are
buffered, plus one final flush of a non-empty remainder); in particular 120
qualifying files produce exactly the batch sizes 50, 50, 20. -/
theorem upsert_batching :
    ∀ vb top t,
      upsertCalls vb top t = chunksOf 50 (indexRecords top t)
      ∧ ((indexRecords top t).length = 120 →
          (upsertCalls vb top t).map List.length = [50, 50, 20]) := by
  intro vb top t
  refine ⟨walkAndIndex_batches vb top t, ?_⟩
  intro h120
  rw [walkAndIndex_batches vb top t]
  exact chunksOf_map_length_120 _ h120

theorem upsert_batching_witness :
    (indexRecords "/r" tree120).length = 120
    ∧ (upsertCalls false "/r" tree120).map List.length = [50, 50, 20] := by
  refine ⟨by decide, ?_⟩
  exact (upsert_batching false "/r" tree120).2 (by decide)

/-- C3: querying a store whose count is zero produces the error message on
standard error and exit code 1, without consulting the similarity-search
operation (the outcome is the same for every store of count zero, whatever
its search function); a non-zero count leads to the search results being
rendered. -/
theorem empty_collection_query_guard :
    ∀ st q n,
      (st.count = 0 →
        queryCollection st q n
            = QueryOut.exitErr "Collection is empty. Run --index first." 1
        ∧ ∀ st2 : Store, st2.count = 0 → queryCollection st q n = queryCollection st2 q n)
      ∧ (st.count ≠ 0 →
          queryCollection st q n = QueryOut.printed ((st.search q n).map renderResult)) := by
  intro st q n
  constructor
  · intro h0
    constructor
    · simp [queryCollection, h0]
    · intro st2 h02
      simp [queryCollection, h0, h02]
  · intro hne
    simp [queryCollection, hne]

theorem empty_collection_query_guard_witness :
    queryCollection ⟨0, fun _ _ => [("x", mkRat 1 2)]⟩ "hi" 5
        = QueryOut.exitErr "Collection is empty. Run --index first." 1
    ∧ queryCollection ⟨1, fun _ _ => [("a.txt", mkRat 1 5)]⟩ "hi" 5
        = QueryOut.printed ["+0.8000  a.txt"] := by
  constructor
  · exact ((empty_collection_query_guard ⟨0, fun _ _ => [("x", mkRat 1 2)]⟩ "hi" 5).1 rfl).1
  · have h := (empty_collection_query_guard ⟨1, fun _ _ => [("a.txt", mkRat 1 5)]⟩ "hi" 5).2
      (by decide)
    rw [h]
    decide

/-- C4: every record the walker emits comes from a visited file whose
lower-cased extension is not in `BINARY_EXTENSIONS`; a file with a binary
extension therefore never contributes a record. -/
theorem binary_ext_never_indexed :
    ∀ top t r, r ∈ indexRecords top t →
      ∃ rd f, (rd, f) ∈ entriesT [] t ∧ recOf top rd f = some r
        ∧ strLower (splitextExt (filepathOf top rd f.fname)) ∉ BINARY_EXTENSIONS := by
  intro top t r hr
  rw [indexRecords] at hr
  obtain ⟨e, he, hsome⟩ := List.mem_filterMap.mp hr
  obtain ⟨hskip, _⟩ := recOf_some_inv top e.1 e.2 r hsome
  exact ⟨e.1, e.2, by simpa using he, hsome, (shouldSkipFile_false_inv _ _ hskip).1⟩

theorem binary_ext_never_indexed_witness :
    (⟨fileId "good.txt", "hello", "good.txt"⟩ : FileRecord) ∈ indexRecords "/r1" demoTree1
    ∧ ∃ rd f, (rd, f) ∈ entriesT [] demoTree1
        ∧ recOf "/r1" rd f = some ⟨fileId "good.txt", "hello", "good.txt"⟩
        ∧ strLower (splitextExt (filepathOf "/r1" rd f.fname)) ∉ BINARY_EXTENSIONS := by
  refine ⟨by decide, ?_⟩
  exact binary_ext_never_indexed "/r1" demoTree1 _ (by decide)

/-- C5: every record the walker emits comes from a file of non-zero size not
exceeding `MAX_FILE_SIZE`, so files of size 0 or above 1,000,000 bytes are
never included; and a file of exactly 1,000,000 bytes passes the size
filter. -/
theorem size_filter_bounds :
    (∀ top t r, r ∈ indexRecords top t →
      ∃ rd f, (rd, f) ∈ entriesT [] t ∧ recOf top rd f = some r
        ∧ f.size ≠ 0 ∧ f.size ≤ MAX_FILE_SIZE)
    ∧ (∀ fp, strLower (splitextExt fp) ∉ BINARY_EXTENSIONS →
        shouldSkipFile fp MAX_FILE_SIZE = false) := by
  constructor
  · intro top t r hr
    rw [indexRecords] at hr
    obtain ⟨e, he, hsome⟩ := List.mem_filterMap.mp hr
    obtain ⟨hskip, _⟩ := recOf_some_inv top e.1 e.2 r hsome
    obtain ⟨_, hz, hle⟩ := shouldSkipFile_false_inv _ _ hskip
    exact ⟨e.1, e.2, by simpa using he, hsome, hz, hle⟩
  · intro fp hfp
    rw [shouldSkipFile, if_neg hfp]
    decide

theorem size_filter_bounds_witness :
    (⟨fileId "good.txt", "hello", "good.txt"⟩ : FileRecord) ∈ indexRecords "/r1" demoTree1
    ∧ (∃ rd f, (rd, f) ∈ entriesT [] demoTree1
        ∧ recOf "/r1" rd f = some ⟨fileId "good.txt", "hello", "good.txt"⟩
        ∧ f.size ≠ 0 ∧ f.size ≤ MAX_FILE_SIZE)
    ∧ shouldSkipFile "exact.txt" MAX_FILE_SIZE = false := by
  refine ⟨by decide, ?_, ?_⟩
  · exact size_filter_bounds.1 "/r1" demoTree1 _ (by decide)
  · exact size_filter_bounds.2 "exact.txt" (by decide)

/-- C6: a subdirectory whose name is in `SKIP_DIRS` is pruned at traversal
time — the walk of a directory list is literally unchanged by such an entry,
whatever subtree hangs below it — and consequently every visited file's chain
of directory components is free of `SKIP_DIRS` names. -/
theorem skip_dirs_pruned :
    (∀ vb top rd d t rest s, d ∈ SKIP_DIRS →
        walkL vb top rd (.dcons d t rest) s = walkL vb top rd rest s)
    ∧ (∀ t e, e ∈ entriesT [] t → ∀ c ∈ e.1, c ∉ SKIP_DIRS) := by
  constructor
  · intro vb top rd d t rest s hd
    rw [walkL_dcons, if_pos hd]
  · intro t e he
    exact entriesT_no_skip [] (by simp) t e he

theorem skip_dirs_pruned_witness :
    walkL false "/r1" [] (.dcons ".git" (.node [⟨"hidden.txt", 3, some "h"⟩] .dnil) .dnil)
        ⟨[], [], []⟩
      = walkL false "/r1" [] .dnil ⟨[], [], []⟩
    ∧ (([], (⟨"good.txt", 5, some "hello"⟩ : FileEntry)) ∈ entriesT [] demoTree1
        ∧ ∀ c ∈ ([] : List String), c ∉ SKIP_DIRS) := by
  refine ⟨?_, by decide, ?_⟩
  · exact skip_dirs_pruned.1 false "/r1" [] ".git"
      (.node [⟨"hidden.txt", 3, some "h"⟩] .dnil) .dnil ⟨[], [], []⟩ (by decide)
  · exact skip_dirs_pruned.2 demoTree1 ([], ⟨"good.txt", 5, some "hello"⟩) (by decide)

/-- C7: with a non-empty store, each query result is rendered in order, on its
own line, as the signed 4-decimal score `1 - distance` followed by two spaces
and the path; a distance of 0.2 (= 1/5) renders as `+0.8000`. -/
theorem query_result_rendering :
    (∀ st q n, st.count ≠ 0 →
      queryCollection st q n
        = QueryOut.printed
            ((st.search q n).map (fun r => formatScore (1 - r.2) ++ "  " ++ r.1)))
    ∧ formatScore (1 - (1/5 : Rat)) = "+0.8000" := by
  constructor
  · intro st q n hne
    simp [queryCollection, hne, renderResult, oneMinus_eq]
  · have h15 : (1/5 : Rat) = mkRat 1 5 := by
      rw [Rat.mkRat_eq_div]
      norm_num
    rw [h15, ← oneMinus_eq]
    decide

theorem query_result_rendering_witness :
    queryCollection ⟨3, fun _ _ => [("b.txt", mkRat 2 5), ("c.txt", mkRat 1 2)]⟩ "q" 2
        = QueryOut.printed ["+0.6000  b.txt", "+0.5000  c.txt"] := by
  have h := query_result_rendering.1
    ⟨3, fun _ _ => [("b.txt", mkRat 2 5), ("c.txt", mkRat 1 2)]⟩ "q" 2 (by decide)
  rw [h]
  simp only [← oneMinus_eq]
  decide

/-- C8 (amended): with verbose mode on, the walker prints exactly one line per
visited file — `"  skip  <filepath>"` for extension- or size-filter
rejections, `"  skip  <filepath> (not utf-8)"` for UTF-8 failures, and
`"  index <relpath>"` for indexed files — and nothing in non-verbose mode;
the line does not always identify which filter rejected the file. -/
theorem verbose_logging_lines :
    ∀ top t,
      (walkAndIndex true top t).log
        = (entriesT [] t).map
            (fun e => logLineOf (decisionOf top e.1 e.2) (filepathOf top e.1 e.2.fname)
              (relpathOf e.1 e.2.fname))
      ∧ (walkAndIndex false top t).log = [] := by
  intro top t
  constructor
  · rw [walkAndIndex_log]
    simp only [indexLog, logOf_true]
    exact flatten_map_singleton (entriesT [] t)
      (fun e => logLineOf (decisionOf top e.1 e.2) (filepathOf top e.1 e.2.fname)
        (relpathOf e.1 e.2.fname))
  · rw [walkAndIndex_log]
    simp only [indexLog, logOf_false]
    exact flatten_map_nil (entriesT [] t)

/-- C8 counterexample: two files rejected by different filters (the size
filter and the UTF-8 filter) produce the identical verbose log output, so the
log line cannot state which filter rejected the file. -/
theorem verbose_log_reason_collision :
    decisionOf "/d" [] ⟨"a (not utf-8)", 0, some ""⟩ = Decision.skipSize
    ∧ decisionOf "/d" [] ⟨"a", 3, none⟩ = Decision.skipNonUtf8
    ∧ (walkAndIndex true "/d" (.node [⟨"a (not utf-8)", 0, some ""⟩] .dnil)).log
        = (walkAndIndex true "/d" (.node [⟨"a", 3, none⟩] .dnil)).log := by
  exact ⟨by decide, by decide, by decide⟩

/-- C9: the extension filter lower-cases the extension before testing
membership, so upper-case variants of binary extensions (such as `.PNG`) are
rejected and never indexed, even though the upper-case form itself is not in
the set. -/
theorem ext_check_case_insensitive :
    (∀ fp sz, strLower (splitextExt fp) ∈ BINARY_EXTENSIONS → shouldSkipFile fp sz = true)
    ∧ splitextExt "photo.PNG" = ".PNG"
    ∧ strLower ".PNG" = ".png"
    ∧ (".png" : String) ∈ BINARY_EXTENSIONS
    ∧ (".PNG" : String) ∉ BINARY_EXTENSIONS
    ∧ (∀ top rd f, strLower (splitextExt (filepathOf top rd f.fname)) ∈ BINARY_EXTENSIONS →
        recOf top rd f = none) := by
  refine ⟨?_, by decide, by decide, by decide, by decide, ?_⟩
  · intro fp sz h
    rw [shouldSkipFile, if_pos h]
  · intro top rd f h
    rw [recOf, if_pos (by rw [shouldSkipFile, if_pos h])]

theorem ext_check_case_insensitive_witness :
    shouldSkipFile "/r/photo.PNG" 10 = true
    ∧ recOf "/r" [] ⟨"photo.PNG", 10, some "data"⟩ = none := by
  constructor
  · exact ext_check_case_insensitive.1 "/r/photo.PNG" 10 (by decide)
  · exact ext_check_case_insensitive.2.2.2.2.2 "/r" [] ⟨"photo.PNG", 10, some "data"⟩
      (by decide)

/-- C10: invoking `main` with the index flag off and `--query ""` takes
neither dispatch branch — Python truthiness of the empty string — so no
indexing and no store query happens, for every store and result limit, and
the run ends without the empty-collection error. -/
theorem empty_query_no_dispatch :
    ∀ st n, mainRun false (some "") n st = MainEffect.noAction := by
  intro st n
  simp [mainRun]
